import Mathlib

/-!
Verification of the dusk-blockchain consensus core against its specification.

Shallow embedding of the Go sources:
  - pkg/core/consensus/reduction/collector.go  (vote collector / accumulation)
  - the selection collector (score event routing, obsolete/early classification)
  - pkg/core/consensus/reduction/reducer.go    (two-step reduction, agreement emission)
  - pkg/core/chain/chain.go                    (AcceptBlock error handling)
  - the CompactSize varint codec               (ReadVarInt / WriteVarInt)
  - pkg/core/candidate/validator.go            (candidate hash / merkle-root checks)
  - pkg/p2p/peer/syncmgr/syncmgr.go            (HeadersFirstMode hash collection)
  - the agreement store                        (Insert / contains)

Machine integers are modelled as Nat; byte strings as List Nat; fallible code
returns Option or Except; channel sends are modelled as emitted output lists.
-/

set_option linter.unusedVariables false

namespace Dusk

/-- Byte strings (block hashes, roots, wire bytes) are lists of naturals. -/
abbrev Hash := List Nat

/-- The 32-zero-byte sentinel standing for the empty vote / no result. -/
def zeros32 : Hash := List.replicate 32 0

/-! ## Selection collector (score event routing) -/

/-- Routing decision of the selection collector for one incoming event. -/
inductive Disposition
  | dropped
  | queued
  | forwarded
deriving DecidableEq, Repr

/-- isObsolete of the selection collector: round below CurrentRound, or step below
CurrentStep — the step comparison is made without requiring round equality. -/
def selIsObsolete (curRound curStep round step : Nat) : Bool :=
  decide (round < curRound) || decide (step < curStep)

/-- isEarly of the selection collector: round above CurrentRound, or step above
CurrentStep, or no selector is running. -/
def selIsEarly (curRound curStep : Nat) (selectorNil : Bool) (round step : Nat) : Bool :=
  decide (round > curRound) || decide (step > curStep) || selectorNil

/-- process of the selection collector: an obsolete event is dropped, an early event is
put on the event queue, the remaining events are forwarded to the running selector. -/
def selProcess (curRound curStep : Nat) (selectorNil : Bool) (round step : Nat) :
    Disposition :=
  if selIsObsolete curRound curStep round step then .dropped
  else if selIsEarly curRound curStep selectorNil round step then .queued
  else .forwarded

/-! ## Sync manager header hash collection -/

/-- HeadersFirstMode hash collection: hashes is preallocated with make of length n,
which yields n nil entries, and the n header hashes are then appended after them;
nil byte slices are modelled as none. -/
def headersFirstHashes (headerHashes : List Hash) : List (Option Hash) :=
  List.replicate headerHashes.length none ++ headerHashes.map some

/-- The headers slice of the sync manager after HeadersFirstMode appends the collected
hashes. -/
def syncAppendHeaders (sHeaders : List (Option Hash)) (headerHashes : List Hash) :
    List (Option Hash) :=
  sHeaders ++ headersFirstHashes headerHashes

/-! ## Reduction vote collector (collector.go) -/

/-- Modelled from the spec: the collected map of the StepEventCollector (its Store and
Clear methods are not under src). Store appends the verified event under its identifier
key and returns the new count; Clear empties the whole map. Keys are the identifiers. -/
abbrev CollectedMap (Ev : Type) := Nat → List Ev

/-- The empty collected map. -/
def emptyCollected (Ev : Type) : CollectedMap Ev := fun _ => []

/-- process of the reduction vote collector: the vote hash of the event is embedded
(abstracted as ident), the event is stored under it and the new count is taken; only
when the count strictly exceeds the committee quorum is the collected batch sent on
collectedVotesChan (returned as some batch) and the collector cleared. -/
def collectorProcess {Ev : Type} (ident : Ev → Nat) (quorum : Nat)
    (st : CollectedMap Ev) (ev : Ev) : CollectedMap Ev × Option (List Ev) :=
  let h := ident ev
  let stored := st h ++ [ev]
  let count := stored.length
  if count > quorum then
    (emptyCollected Ev, some stored)
  else
    (fun k => if k = h then stored else st k, none)

/-! ## Event queue and round updates -/

/-- Modelled from the spec: consensus.EventQueue is not under src. It is a round and
step indexed buffer of events; ConsumeUntil(round) drops all entries with round
strictly below the argument; Clear(round) drops all entries at exactly that round.
Entries are (round, step, event) triples. -/
abbrev EventQueue (Ev : Type) := List (Nat × Nat × Ev)

/-- PutEvent appends an entry for the given round and step. -/
def putEvent {Ev : Type} (q : EventQueue Ev) (round step : Nat) (ev : Ev) :
    EventQueue Ev :=
  q ++ [(round, step, ev)]

/-- ConsumeUntil keeps exactly the entries whose round is at least the argument. -/
def consumeUntil {Ev : Type} (q : EventQueue Ev) (round : Nat) : EventQueue Ev :=
  q.filter (fun e => decide (round ≤ e.1))

/-- Clear drops exactly the entries stored at the given round. -/
def queueClear {Ev : Type} (q : EventQueue Ev) (round : Nat) : EventQueue Ev :=
  q.filter (fun e => decide (e.1 ≠ round))

/-- State of the selection collector relevant to its round update. -/
structure SelState (Ev : Type) where
  curRound : Nat
  curStep : Nat
  selectorNil : Bool
  completed : Bool
  queue : EventQueue Ev

/-- UpdateRound of the selection collector: sets CurrentRound to the new round and
CurrentStep to 1, stops the selection (the selector becomes nil), resets the completed
flag, and calls ConsumeUntil with the new round on its queue. -/
def selUpdateRound {Ev : Type} (st : SelState Ev) (round : Nat) : SelState Ev :=
  { curRound := round
    curStep := 1
    selectorNil := true
    completed := false
    queue := consumeUntil st.queue round }

/-- State of the reduction collector relevant to its round update. -/
structure RedState (Ev : Type) where
  round : Nat
  step : Nat
  reducerNil : Bool
  queue : EventQueue Ev
  collected : CollectedMap Ev

/-- updateRound of the reduction collector: sets the round to the new round and the
step to 1, then calls Clear with the new round on its queue (not ConsumeUntil), clears
the collected votes, and ends any running reducer. -/
def redUpdateRound {Ev : Type} (st : RedState Ev) (round : Nat) : RedState Ev :=
  { round := round
    step := 1
    reducerNil := true
    queue := queueClear st.queue round
    collected := emptyCollected Ev }

/-! ## Claims C1 and C3 -/

/-- Claim C1, counterexample: the claim states that a batch is emitted as soon as the
number of collected events for an identifier reaches the quorum. With quorum 1, after
one event the collected list for its identifier has length 1, which reaches the quorum,
yet nothing is emitted, because the code emits only when the count strictly exceeds
the quorum. -/
theorem collector_no_emit_at_quorum :
    ((collectorProcess id 1 (emptyCollected Nat) 0).1 0).length ≥ 1
    ∧ (collectorProcess id 1 (emptyCollected Nat) 0).2 = none := by
  refine ⟨by decide, rfl⟩

/-- Claim C1, amended: the vote collector emits the batch collected for the identifier
of the incoming event exactly when the new count strictly exceeds the quorum, and every
emitted batch has size strictly above the quorum (hence at least the quorum). -/
theorem collector_emits_above_quorum {Ev : Type} (ident : Ev → Nat) (quorum : Nat)
    (st : CollectedMap Ev) (ev : Ev) :
    (∀ batch, (collectorProcess ident quorum st ev).2 = some batch →
      batch = st (ident ev) ++ [ev] ∧ batch.length > quorum ∧ batch.length ≥ quorum)
    ∧ ((st (ident ev) ++ [ev]).length > quorum →
      (collectorProcess ident quorum st ev).2 = some (st (ident ev) ++ [ev])) := by
  constructor
  · intro batch hb
    by_cases hgt : (st (ident ev) ++ [ev]).length > quorum
    · simp only [collectorProcess, if_pos hgt, Option.some.injEq] at hb
      subst hb
      exact ⟨rfl, hgt, Nat.le_of_lt hgt⟩
    · simp only [collectorProcess, if_neg hgt] at hb
      exact absurd hb (by simp)
  · intro hgt
    simp only [collectorProcess, if_pos hgt]

/-- A concrete collected map holding one vote under every identifier. -/
def stOneVote : CollectedMap Nat := fun _ => [7]

/-- Witness for the amended claim C1: with quorum 1 and one vote already collected,
processing a second vote for the same identifier emits the two-vote batch. -/
theorem collector_emits_above_quorum_witness :
    (collectorProcess id 1 stOneVote 7).2 = some ([7] ++ [7]) :=
  (collector_emits_above_quorum id 1 stOneVote 7).2 (by decide)

/-- Claim C3: the claim states that after any round-update handler runs for a new round
R the event queue holds no entries with round below R. The reduction collector refutes
this: its updateRound calls Clear with the new round, so updating from round 4 to
round 5 with entries queued at rounds 3 and 5 keeps the round-3 entry (3 < 5) and
drops the round-5 one. The selection collector, which calls ConsumeUntil as the claim
describes, keeps exactly the round-5 entry on the same queue. -/
theorem reduction_update_round_keeps_stale_entries :
    (redUpdateRound (⟨4, 3, false, [(3, 1, 0), (5, 1, 1)], emptyCollected Nat⟩ : RedState Nat) 5).queue
      = [(3, 1, 0)]
    ∧ (3 < 5)
    ∧ (selUpdateRound (⟨4, 3, false, false, [(3, 1, 0), (5, 1, 1)]⟩ : SelState Nat) 5).queue
      = [(5, 1, 1)] := by
  refine ⟨rfl, by decide, rfl⟩

/-! ## Claims C2 and C9 -/

/-- Claim C2: the claim states that an event with Round strictly greater than
CurrentRound is always queued as early, and that an event is obsolete only when
Round is below CurrentRound or Round equals CurrentRound with Step below CurrentStep.
The code refutes this: a score event with Round 5 and Step 1 arriving while the
collector is at Round 4 and Step 3 is classified obsolete (its step comparison fires
without a round-equality guard) and is dropped, not queued. -/
theorem selection_drops_early_round_event :
    selProcess 4 3 false 5 1 = .dropped
    ∧ selIsObsolete 4 3 5 1 = true
    ∧ selProcess 4 3 false 5 1 ≠ .queued
    ∧ ¬(5 < 4 ∨ (5 = 4 ∧ 1 < 3)) := by
  refine ⟨rfl, rfl, by decide, by decide⟩

/-- Claim C9: the claim states that exactly n hash entries are appended, one per
received header, with no nil leading entries. The code refutes this: for a headers
message carrying the two hashes 01 and 02, the appended run is four entries long and
begins with two nil entries. -/
theorem syncmgr_appends_leading_nil_hashes :
    syncAppendHeaders [] [[1], [2]] = [none, none, some [1], some [2]]
    ∧ (syncAppendHeaders [] [[1], [2]]).length = 4
    ∧ syncAppendHeaders [] [[1], [2]] ≠ [some [1], some [2]] := by
  refine ⟨rfl, rfl, by decide⟩

/-! ## Reducer (reducer.go) -/

/-- A message published by the reducer on the event bus: a signed reduction vote, an
aggregated agreement gossiped on the Agreement topic, or a regeneration message. -/
inductive ROut
  | reductionVote (h : Hash)
  | agreementMsg (h : Hash)
  | regeneration
deriving DecidableEq, Repr

/-- extractHash of the reducer: a nil batch gives the 32-zero-byte sentinel, otherwise
the identifier of the first event of the batch is extracted; the panic on an empty
non-nil batch (which has no first event) is modelled as none. -/
def extractHash {Ev : Type} (ident : Ev → Hash) : Option (List Ev) → Option Hash
  | none => some zeros32
  | some [] => none
  | some (e :: _) => some (ident e)

/-- isReductionSuccessful of the reducer: both step hashes differ from the 32-zero-byte
sentinel and the two hashes are equal. -/
def isReductionSuccessful (h1 h2 : Hash) : Bool :=
  (!(h1 == zeros32) && !(h2 == zeros32)) && (h1 == h2)

/-- begin of the reducer, as the list of messages it publishes. The values the two
stale checks read are stale1 and stale2 (each read under the read lock guarding the
whole conditional block); com1 and com2 are the two inCommittee answers, and events1
and events2 the two batches fetched from the collected votes channel (none on timeout
or stop). Phase one extracts hash1 and, when not stale, votes for it if in committee;
phase two, when not stale, extracts hash2, gossips the aggregated agreement for it
exactly when the reduction was successful and the node is in committee, and always
publishes the regeneration message. A panic while extracting gives none. -/
def beginOutputs {Ev : Type} (ident : Ev → Hash) (stale1 stale2 com1 com2 : Bool)
    (events1 events2 : Option (List Ev)) : Option (List ROut) :=
  match extractHash ident events1 with
  | none => none
  | some h1 =>
    let out1 : List ROut := if stale1 then [] else
      (if com1 then [ROut.reductionVote h1] else [])
    if stale2 then some out1
    else
      match extractHash ident events2 with
      | none => none
      | some h2 =>
        let agOut : List ROut :=
          if isReductionSuccessful h1 h2 && com2 then [ROut.agreementMsg h2] else []
        some (out1 ++ agOut ++ [ROut.regeneration])

/-! ## Claim C4 -/

/-- Claim C4: in a completed run (neither stale check fired), an aggregated agreement
is gossiped exactly when the two step hashes are equal, differ from the 32-zero-byte
sentinel, and the node is in the committee; in particular nothing is gossiped when the
hashes differ or either batch timed out (its hash then being the sentinel). -/
theorem reducer_agreement_iff {Ev : Type} (ident : Ev → Hash) (com1 com2 : Bool)
    (events1 events2 : Option (List Ev)) (h1 h2 : Hash)
    (he1 : extractHash ident events1 = some h1)
    (he2 : extractHash ident events2 = some h2) :
    ∃ outs, beginOutputs ident false false com1 com2 events1 events2 = some outs
      ∧ ∀ h, ROut.agreementMsg h ∈ outs ↔
          (h = h2 ∧ h1 = h2 ∧ h1 ≠ zeros32 ∧ com2 = true) := by
  refine ⟨(if com1 then [ROut.reductionVote h1] else [])
      ++ (if isReductionSuccessful h1 h2 && com2 then [ROut.agreementMsg h2] else [])
      ++ [ROut.regeneration], ?_, ?_⟩
  · simp only [beginOutputs, he1, he2]
    simp
  intro h
  constructor
  · intro hmem
    simp only [List.mem_append, List.mem_singleton] at hmem
    rcases hmem with (hmem | hmem) | hmem
    · rcases Bool.eq_false_or_eq_true com1 with hc | hc <;> simp [hc] at hmem
    · by_cases hs : (isReductionSuccessful h1 h2 && com2) = true
      · simp only [if_pos hs, List.mem_singleton, ROut.agreementMsg.injEq] at hmem
        subst hmem
        have hs' := hs
        simp only [isReductionSuccessful, Bool.and_eq_true, Bool.not_eq_true',
          beq_eq_false_iff_ne, ne_eq, beq_iff_eq] at hs'
        exact ⟨rfl, hs'.1.2, hs'.1.1.1, hs'.2⟩
      · rw [if_neg hs] at hmem
        exact absurd hmem (List.not_mem_nil _)
    · exact absurd hmem (by simp)
  · rintro ⟨heq0, heq, hnz, hcom⟩
    have hs : (isReductionSuccessful h1 h2 && com2) = true := by
      simp only [isReductionSuccessful, Bool.and_eq_true, Bool.not_eq_true',
        beq_eq_false_iff_ne, ne_eq, beq_iff_eq]
      exact ⟨⟨⟨hnz, heq ▸ hnz⟩, heq⟩, hcom⟩
    subst heq0
    rw [if_pos hs]
    simp

/-- A concrete non-zero 32-byte hash. -/
def hashOnes : Hash := List.replicate 32 1

/-- Witness for claim C4: a run where both steps return a batch whose identifier is
the same non-zero hash, with the node in committee, gossips the agreement. -/
theorem reducer_agreement_iff_witness :
    ∃ outs, beginOutputs (fun _ : Nat => hashOnes) false false true true
        (some [0]) (some [0]) = some outs
      ∧ ∀ h, ROut.agreementMsg h ∈ outs ↔
          (h = hashOnes ∧ hashOnes = hashOnes ∧ hashOnes ≠ zeros32 ∧ true = true) :=
  reducer_agreement_iff (fun _ : Nat => hashOnes) true true (some [0]) (some [0])
    hashOnes hashOnes rfl rfl

/-! ## Claim C5: cancellation -/

/-- The atomic sections of the reducer that touch the stale flag. Both guarded blocks
of begin hold the read lock around their stale check and their publications, end holds
the write lock while setting stale, and startReduction clears stale and sends the
initial vote; the lock discipline makes each an atomic step of the interleaving. -/
inductive RAct
  | phase1 (com : Bool) (h1 : Hash)
  | phase2 (success com : Bool) (h2 : Hash)
  | endCall
  | startCall (h : Hash)
deriving DecidableEq, Repr

/-- One atomic reducer step: the phase blocks publish only when stale is false (the
first its committee vote, the second the agreement on success plus the regeneration
message); endCall sets stale; startCall clears stale and publishes the initial vote. -/
def reducerStep (stale : Bool) : RAct → Bool × List ROut
  | .phase1 com h1 =>
      (stale, if stale then [] else if com then [ROut.reductionVote h1] else [])
  | .phase2 success com h2 =>
      (stale, if stale then [] else
        (if success && com then [ROut.agreementMsg h2] else []) ++ [ROut.regeneration])
  | .endCall => (true, [])
  | .startCall h => (false, [ROut.reductionVote h])

/-- Run a schedule of atomic reducer steps, collecting every published message. -/
def reducerRun (stale : Bool) : List RAct → Bool × List ROut
  | [] => (stale, [])
  | a :: rest =>
      let s1 := reducerStep stale a
      let s2 := reducerRun s1.1 rest
      (s2.1, s1.2 ++ s2.2)

/-- While stale and absent any startCall, a schedule publishes nothing and keeps the
stale flag set. -/
theorem reducerRun_stale_silent (post : List RAct)
    (hpost : ∀ h, RAct.startCall h ∉ post) :
    reducerRun true post = (true, []) := by
  induction post with
  | nil => rfl
  | cons a rest ih =>
      have hrest : ∀ h, RAct.startCall h ∉ rest := by
        intro h hmem
        exact hpost h (List.mem_cons_of_mem a hmem)
      have hstep : reducerStep true a = (true, []) := by
        cases a with
        | phase1 com h1 => simp [reducerStep]
        | phase2 success com h2 => simp [reducerStep]
        | endCall => rfl
        | startCall h => exact absurd (List.mem_cons_self _ _) (hpost h)
      simp [reducerRun, hstep, ih hrest]

/-- Claim C5: after end has run, a reducer that is not restarted publishes nothing
more: for any prefix of atomic steps, any initial stale value, and any continuation
free of startCall, the steps scheduled after endCall produce no message at all. -/
theorem reducer_silent_after_end (post : List RAct)
    (hpost : ∀ h, RAct.startCall h ∉ post) (s0 : Bool) (pre : List RAct) :
    (reducerRun (reducerRun s0 (pre ++ [RAct.endCall])).1 post).2 = [] := by
  have hpre : (reducerRun s0 (pre ++ [RAct.endCall])).1 = true := by
    induction pre generalizing s0 with
    | nil => rfl
    | cons a rest ih => simpa [reducerRun] using ih (reducerStep s0 a).1
  rw [hpre, reducerRun_stale_silent post hpost]

/-- Witness for claim C5: a cancelled reducer whose two in-flight phases complete after
endCall publishes neither vote, agreement nor regeneration. -/
theorem reducer_silent_after_end_witness :
    (reducerRun
      (reducerRun false
        ([RAct.phase1 true hashOnes] ++ [RAct.endCall])).1
      [RAct.phase2 true true hashOnes]).2 = [] :=
  reducer_silent_after_end [RAct.phase2 true true hashOnes]
    (by intro h hmem; simp at hmem) false [RAct.phase1 true hashOnes]

/-! ## Chain AcceptBlock (chain.go) -/

/-- AcceptBlock of the chain, abstracted over the error results of its fallible calls
(CheckBlock, StoreBlock inside db.Update, block Encode, advertiseBlock, and
DeleteCandidateBlocks inside the second db.Update); blocks are abstract values. The
verification, store, encode and advertise errors are returned and abort the procedure;
the tip becomes the new block right after the successful store; the cleanup error of
DeleteCandidateBlocks is only logged and never aborts. addConsensusNodes and the bus
publications do not touch the tip or the result. -/
def acceptBlock (verifyErr storeErr encodeErr advertiseErr deleteErr : Option String)
    (blk prevBlock : Nat) : Option String × Nat :=
  match verifyErr with
  | some e => (some e, prevBlock)
  | none =>
    match storeErr with
    | some e => (some e, prevBlock)
    | none =>
      let tip := blk
      match encodeErr with
      | some e => (some e, tip)
      | none =>
        match advertiseErr with
        | some e => (some e, tip)
        | none => (none, tip)

/-- Claim C6: when the store of the block fails, AcceptBlock returns that error with
the previous tip unchanged; when verification, store, encode and advertise succeed,
AcceptBlock returns nil with the tip moved to the new block, whatever the outcome of
the DeleteCandidateBlocks cleanup. -/
theorem acceptBlock_store_error_and_cleanup
    (verifyErr storeErr encodeErr advertiseErr deleteErr : Option String)
    (blk prevBlock : Nat) :
    (verifyErr = none → ∀ e, storeErr = some e →
      acceptBlock verifyErr storeErr encodeErr advertiseErr deleteErr blk prevBlock
        = (some e, prevBlock))
    ∧ (verifyErr = none → storeErr = none → encodeErr = none → advertiseErr = none →
      acceptBlock verifyErr storeErr encodeErr advertiseErr deleteErr blk prevBlock
        = (none, blk)) := by
  constructor
  · rintro rfl e rfl
    rfl
  · rintro rfl rfl rfl rfl
    rfl

/-- Witness for claim C6: a failing store aborts on the old tip, and a failing cleanup
alone still accepts the block, returning nil with the tip advanced. -/
theorem acceptBlock_store_error_and_cleanup_witness :
    acceptBlock none (some "dberr") none none none 9 4 = (some "dberr", 4)
    ∧ acceptBlock none none none none (some "boom") 9 4 = (none, 9) :=
  ⟨(acceptBlock_store_error_and_cleanup none (some "dberr") none none none 9 4).1
      rfl "dberr" rfl,
    (acceptBlock_store_error_and_cleanup none none none none (some "boom") 9 4).2
      rfl rfl rfl rfl⟩

/-! ## Candidate validation (validator.go) -/

/-- A decoded candidate block: the stored header hash, the stored transaction root,
and the remaining content (header fields and transactions) over which the hash and the
merkle root are recomputed. -/
structure CBlock (Body : Type) where
  hash : Hash
  txRoot : Hash
  body : Body

/-- checkHash of the candidate validator: the stored header hash is saved, SetHash
recomputes it from the rest of the block — including the still stored transaction
root — and the two are compared byte for byte. -/
def checkHash {Body : Type} (computeHash : Body → Hash → Hash) (b : CBlock Body) :
    Option String :=
  if b.hash = computeHash b.body b.txRoot then none else some "invalid block hash"

/-- checkRoot of the candidate validator: the stored transaction root is saved, SetRoot
recomputes the merkle root over the transactions, and the two are compared. -/
def checkRoot {Body : Type} (computeRoot : Body → Hash) (b : CBlock Body) :
    Option String :=
  if b.txRoot = computeRoot b.body then none else some "invalid merkle root hash"

/-- Validate of the candidate validator on an already decoded candidate: checkHash
first, then checkRoot; the first failure is returned. -/
def validateCandidate {Body : Type} (computeHash : Body → Hash → Hash)
    (computeRoot : Body → Hash) (b : CBlock Body) : Option String :=
  match checkHash computeHash b with
  | some e => some e
  | none => checkRoot computeRoot b

/-- Claim C8: Validate returns nil exactly when the recomputed hash matches the stored
header hash and the recomputed merkle root matches the stored root; a hash mismatch
yields the invalid block hash error, and a matching hash with a root mismatch yields
the invalid merkle root hash error. -/
theorem validateCandidate_iff {Body : Type} (computeHash : Body → Hash → Hash)
    (computeRoot : Body → Hash) (b : CBlock Body) :
    (validateCandidate computeHash computeRoot b = none ↔
      (b.hash = computeHash b.body b.txRoot ∧ b.txRoot = computeRoot b.body))
    ∧ (b.hash ≠ computeHash b.body b.txRoot →
      validateCandidate computeHash computeRoot b = some "invalid block hash")
    ∧ (b.hash = computeHash b.body b.txRoot → b.txRoot ≠ computeRoot b.body →
      validateCandidate computeHash computeRoot b = some "invalid merkle root hash") := by
  refine ⟨?_, ?_, ?_⟩
  · constructor
    · intro hv
      by_cases hh : b.hash = computeHash b.body b.txRoot
      · by_cases hr : b.txRoot = computeRoot b.body
        · exact ⟨hh, hr⟩
        · simp [validateCandidate, checkHash, checkRoot, hh, hr] at hv
      · simp [validateCandidate, checkHash, hh] at hv
    · rintro ⟨hh, hr⟩
      simp [validateCandidate, checkHash, checkRoot, hh, hr]
  · intro hh
    simp [validateCandidate, checkHash, hh]
  · intro hh hr
    simp [validateCandidate, checkHash, checkRoot, hh, hr]

/-- Witness for claim C8: a candidate whose stored hash and root equal the recomputed
ones validates, by the left-to-right use of the characterization. -/
theorem validateCandidate_iff_witness :
    validateCandidate (fun (_ : Nat) _ => hashOnes) (fun _ => zeros32)
      ⟨hashOnes, zeros32, 0⟩ = none :=
  (validateCandidate_iff (fun (_ : Nat) _ => hashOnes) (fun _ => zeros32)
    ⟨hashOnes, zeros32, 0⟩).1.mpr ⟨rfl, rfl⟩

/-! ## CompactSize varint codec -/

/-- The little-endian bytes of v on n bytes, as WriteUint16LE, WriteUint32LE and
WriteUint64LE produce them. -/
def leBytes : Nat → Nat → List Nat
  | 0, _ => []
  | n + 1, v => v % 256 :: leBytes n (v / 256)

/-- Read an n-byte little-endian integer from the front of a byte list, as
ReadUint16LE, ReadUint32LE and ReadUint64LE do; none when the input is too short. -/
def readLE : Nat → List Nat → Option (Nat × List Nat)
  | 0, l => some (0, l)
  | _ + 1, [] => none
  | n + 1, b :: bs =>
    match readLE n bs with
    | none => none
    | some (v, rest) => some (b + 256 * v, rest)

/-- WriteVarInt: one literal byte below 0xfd, the 0xfd and two-byte form up to 0xffff,
the 0xfe and four-byte form up to 0xffffffff, and the 0xff and eight-byte form above. -/
def writeVarInt (v : Nat) : List Nat :=
  if v < 0xfd then [v]
  else if v ≤ 0xffff then 0xfd :: leBytes 2 v
  else if v ≤ 0xffffffff then 0xfe :: leBytes 4 v
  else 0xff :: leBytes 8 v

/-- ReadVarInt: the discriminant byte selects the width, the value is read little
endian, and a value representable in a smaller form is rejected as non-canonical. -/
def readVarInt : List Nat → Except String (Nat × List Nat)
  | [] => .error "EOF"
  | d :: rest =>
    if d = 0xff then
      match readLE 8 rest with
      | none => .error "EOF"
      | some (rv, r2) =>
        if rv < 0x100000000 then .error "non-canonical encoding" else .ok (rv, r2)
    else if d = 0xfe then
      match readLE 4 rest with
      | none => .error "EOF"
      | some (rv, r2) =>
        if rv < 0x10000 then .error "non-canonical encoding" else .ok (rv, r2)
    else if d = 0xfd then
      match readLE 2 rest with
      | none => .error "EOF"
      | some (rv, r2) =>
        if rv < 0xfd then .error "non-canonical encoding" else .ok (rv, r2)
    else .ok (d, rest)

/-- Reading back n little-endian bytes of a value below 256 to the n recovers it and
leaves the remaining bytes untouched. -/
theorem readLE_leBytes (n : Nat) (v : Nat) (rest : List Nat) (hv : v < 256 ^ n) :
    readLE n (leBytes n v ++ rest) = some (v, rest) := by
  induction n generalizing v with
  | zero =>
      have hv0 : v = 0 := by simpa using hv
      simp [leBytes, readLE, hv0]
  | succ n ih =>
      have hdiv : v / 256 < 256 ^ n := by
        rw [Nat.div_lt_iff_lt_mul (by norm_num : 0 < 256)]
        calc v < 256 ^ (n + 1) := hv
        _ = 256 ^ n * 256 := by rw [pow_succ]
      simp [leBytes, readLE, ih _ hdiv, Nat.mod_add_div]

/-- Claim C7: for every v below 2 to the 64, reading back the varint written for v
yields exactly v with the remaining bytes untouched; the writer uses the one-byte form
below 0xfd, the 0xfd form up to 0xffff, the 0xfe form up to 0xffffffff, and the 0xff
form above; and every non-canonical encoding — a value representable in a smaller
form — is rejected by the reader. -/
theorem varint_roundtrip_and_canonical (v : Nat) (hv : v < 2 ^ 64) :
    (∀ rest, readVarInt (writeVarInt v ++ rest) = .ok (v, rest))
    ∧ (v < 0xfd → writeVarInt v = [v])
    ∧ (0xfd ≤ v → v ≤ 0xffff → writeVarInt v = 0xfd :: leBytes 2 v)
    ∧ (0x10000 ≤ v → v ≤ 0xffffffff → writeVarInt v = 0xfe :: leBytes 4 v)
    ∧ (0x100000000 ≤ v → writeVarInt v = 0xff :: leBytes 8 v)
    ∧ (∀ w rest, w < 0xfd →
        readVarInt (0xfd :: (leBytes 2 w ++ rest)) = .error "non-canonical encoding")
    ∧ (∀ w rest, w < 0x10000 →
        readVarInt (0xfe :: (leBytes 4 w ++ rest)) = .error "non-canonical encoding")
    ∧ (∀ w rest, w < 0x100000000 →
        readVarInt (0xff :: (leBytes 8 w ++ rest)) = .error "non-canonical encoding") := by
  have p2 : (256 : Nat) ^ 2 = 65536 := by norm_num
  have p4 : (256 : Nat) ^ 4 = 4294967296 := by norm_num
  have p8 : (256 : Nat) ^ 8 = 18446744073709551616 := by norm_num
  have q64 : (2 : Nat) ^ 64 = 18446744073709551616 := by norm_num
  refine ⟨?_, ?_, ?_, ?_, ?_, ?_, ?_, ?_⟩
  · intro rest
    by_cases hA : v < 0xfd
    · have e255 : v ≠ 0xff := by omega
      have e254 : v ≠ 0xfe := by omega
      have e253 : v ≠ 0xfd := by omega
      simp [writeVarInt, readVarInt, hA, e255, e254, e253]
    · by_cases hB : v ≤ 0xffff
      · have hlt : v < 256 ^ 2 := by rw [p2]; omega
        simp [writeVarInt, readVarInt, hA, hB, readLE_leBytes 2 v rest hlt]
      · by_cases hC : v ≤ 0xffffffff
        · have hlt : v < 256 ^ 4 := by rw [p4]; omega
          simp [writeVarInt, readVarInt, hA, hB, hC, readLE_leBytes 4 v rest hlt]
          omega
        · have hlt : v < 256 ^ 8 := by rw [p8]; omega
          simp [writeVarInt, readVarInt, hA, hB, hC, readLE_leBytes 8 v rest hlt]
          omega
  · intro hA
    simp [writeVarInt, hA]
  · intro hA hB
    simp [writeVarInt, (show ¬v < 0xfd by omega), hB]
  · intro hA hB
    simp [writeVarInt, (show ¬v < 0xfd by omega), (show ¬v ≤ 0xffff by omega), hB]
  · intro hA
    simp [writeVarInt, (show ¬v < 0xfd by omega), (show ¬v ≤ 0xffff by omega),
      (show ¬v ≤ 0xffffffff by omega)]
  · intro w rest hw
    have hlt : w < 256 ^ 2 := by rw [p2]; omega
    simp [readVarInt, readLE_leBytes 2 w rest hlt, hw]
  · intro w rest hw
    have hlt : w < 256 ^ 4 := by rw [p4]; omega
    simp [readVarInt, readLE_leBytes 4 w rest hlt, hw]
  · intro w rest hw
    have hlt : w < 256 ^ 8 := by rw [p8]; omega
    simp [readVarInt, readLE_leBytes 8 w rest hlt, hw]

/-- Witness for claim C7: 300 written and read back gives 300 with nothing left. -/
theorem varint_roundtrip_and_canonical_witness :
    readVarInt (writeVarInt 300 ++ []) = .ok (300, []) :=
  (varint_roundtrip_and_canonical 300 (by norm_num)).1 []

/-! ## Agreement store -/

/-- The collected map of the agreement store: a Go map from step to a slice of stored
agreements, a missing key being the nil slice (none). -/
abbrev AgrStore (Agr : Type) := Nat → Option (List Agr)

/-- The binary search loop of sort.Search from the Go standard library: it narrows
the interval i to j while i is below j, probing the midpoint and keeping the invariant
that the answer lies in it, and returns i when the interval is empty. -/
def sortSearchAux (f : Nat → Bool) (i j : Nat) : Nat :=
  if h : i < j then
    let m := (i + j) / 2
    if f m then sortSearchAux f i m else sortSearchAux f (m + 1) j
  else i
termination_by j - i
decreasing_by
  · omega
  · omega

/-- sort.Search over n elements. -/
def sortSearch (n : Nat) (f : Nat → Bool) : Nat := sortSearchAux f 0 n

/-- find of the agreement store: -1 when no slice is stored for the step of a,
otherwise sort.Search over the stored slice with the predicate comparing stored
elements against a (the probe itself is used as the default of the safe index, which
sort.Search never exercises out of range). -/
def storeFind {Agr : Type} (stepF : Agr → Nat) (cmp : Agr → Agr → Int)
    (s : AgrStore Agr) (a : Agr) : Int :=
  match s (stepF a) with
  | none => -1
  | some stored =>
    Int.ofNat (sortSearch stored.length (fun i => decide (cmp (stored.getD i a) a ≤ 0)))

/-- contains of the agreement store: false at index -1, otherwise true exactly when
the index is inside the stored slice and the element there equals a. -/
def storeContains {Agr : Type} (stepF : Agr → Nat) (eqF : Agr → Agr → Bool)
    (s : AgrStore Agr) (idx : Int) (a : Agr) : Bool :=
  let stored := (s (stepF a)).getD []
  if idx = -1 then false
  else decide (idx < (stored.length : Int)) && eqF (stored.getD idx.toNat a) a

/-- The insertion loop of Insert: each iteration appends a zero value, copies the tail
one slot to the right from the insertion index, and writes a at the index — one
insertion of a at the index per iteration. -/
def insertLoop {Agr : Type} (a : Agr) (idx : Nat) : Nat → List Agr → List Agr
  | 0, stored => stored
  | w + 1, stored => insertLoop a idx w (stored.take idx ++ a :: stored.drop idx)

/-- Insert of the agreement store: on a missing slice, a fresh slice of weight copies
of a is stored and weight returned; on a duplicate (contains), the current length is
returned and nothing changes; otherwise the insertion loop runs weight times and the
new length is returned. -/
def storeInsert {Agr : Type} (stepF : Agr → Nat) (cmp : Agr → Agr → Int)
    (eqF : Agr → Agr → Bool) (s : AgrStore Agr) (a : Agr) (weight : Nat) :
    Nat × AgrStore Agr :=
  let idx := storeFind stepF cmp s a
  if idx = -1 then
    (weight, fun k => if k = stepF a then some (List.replicate weight a) else s k)
  else
    let stored := (s (stepF a)).getD []
    if storeContains stepF eqF s idx a then
      (stored.length, s)
    else
      let newStored := insertLoop a idx.toNat weight stored
      (newStored.length, fun k => if k = stepF a then some newStored else s k)

/-- Claim C10: Insert is idempotent on duplicates — when a is already contained in the
store, Insert returns the current number of agreements stored for the step of a and
leaves the store unchanged, so no agreement is counted twice toward quorum. -/
theorem storeInsert_duplicate {Agr : Type} (stepF : Agr → Nat) (cmp : Agr → Agr → Int)
    (eqF : Agr → Agr → Bool) (s : AgrStore Agr) (a : Agr) (w : Nat)
    (h : storeContains stepF eqF s (storeFind stepF cmp s a) a = true) :
    storeInsert stepF cmp eqF s a w = (((s (stepF a)).getD []).length, s) := by
  have hne : storeFind stepF cmp s a ≠ -1 := by
    intro he
    rw [he] at h
    simp [storeContains] at h
  simp [storeInsert, hne, h]

/-- A concrete store holding the single agreement 5 at step 1. -/
def storeW : AgrStore Nat := fun k => if k = 1 then some [5] else none

/-- Witness for claim C10: inserting the already stored agreement 5 with weight 3
returns the stored count 1 and leaves the store untouched. -/
theorem storeInsert_duplicate_witness :
    storeInsert (fun _ : Nat => 1) (fun x y => (x : Int) - (y : Int))
      (fun x y => x == y) storeW 5 3 = (1, storeW) := by
  have h : storeContains (fun _ : Nat => 1) (fun x y : Nat => x == y) storeW
      (storeFind (fun _ : Nat => 1) (fun x y => (x : Int) - (y : Int)) storeW 5) 5
      = true := by
    simp [storeContains, storeFind, storeW, sortSearch, sortSearchAux]
  simpa [storeW] using
    storeInsert_duplicate (fun _ : Nat => 1) (fun x y => (x : Int) - (y : Int))
      (fun x y : Nat => x == y) storeW 5 3 h

end Dusk
